import Mathlib

/-!
Shallow embedding of `src/ControlChart/control_chart.py` (a streaming SPC
control-chart rule engine) and proofs of its specification claims.

Python floats are modelled as rationals (`ℚ`); numpy boolean-sum counting
(`np.sum(w.data > ucl)`) is modelled by counting list entries satisfying the
strict comparison; diagnostics written to stderr by `err_out` are modelled by
an inductive `Diagnostic` type carrying exactly the data the formatted message
renders.
-/

namespace ControlChart

/-- The diagnostics the program writes to stderr, one constructor per
`err_out` call site, carrying the values the format string renders. -/
inductive Diagnostic where
  | sigma3Low (x : ℚ)
  | sigma3High (x : ℚ)
  | sigma2High (data : List ℚ)
  | sigma2Low (data : List ℚ)
  | sigma1High (data : List ℚ)
  | sigma1Low (data : List ℚ)
  | clShiftHigh (data : List ℚ) (thresh : Nat) (size : Nat)
  | clShiftLow (data : List ℚ) (thresh : Nat) (size : Nat)
  | invalidLine (line : String)
  deriving DecidableEq

/-- `class Window`: fixed-size rolling buffer.  `data` models the numpy array
(always `n` slots), `idx` the write cursor. -/
structure Window where
  n : Nat
  idx : Nat
  data : List ℚ
  deriving DecidableEq

/-- `Window.__init__(n, init)` with an explicit `init` value (the program
always passes `init=options.m`): every slot pre-filled with `init`. -/
def Window.mkInit (n : Nat) (init : ℚ) : Window :=
  ⟨n, 0, List.replicate n init⟩

/-- `Window.append`: write at `idx`; a write past the last slot raises
`IndexError`, caught by resetting `idx` to 0 and writing there; then `idx += 1`.
`self.data[self.idx] = value` raises exactly when `idx ≥ n`. -/
def Window.append (w : Window) (value : ℚ) : Window :=
  if w.idx < w.n then
    ⟨w.n, w.idx + 1, w.data.set w.idx value⟩
  else
    ⟨w.n, 1, w.data.set 0 value⟩

/-- Fold a sequence of values through `Window.append`. -/
def Window.appendAll (w : Window) (xs : List ℚ) : Window :=
  xs.foldl Window.append w

/-- `np.sum(data > bound)`: how many entries are strictly greater. -/
def countGT (l : List ℚ) (bound : ℚ) : Nat :=
  (l.filter (fun v => bound < v)).length

/-- `np.sum(data < bound)`: how many entries are strictly less. -/
def countLT (l : List ℚ) (bound : ℚ) : Nat :=
  (l.filter (fun v => v < bound)).length

/-- `test_3_sigma(options)`: the closure's body on one value `x`.
`m` is `options.m`, `s` is `options.s`. -/
def test_3_sigma (m s x : ℚ) : Option Diagnostic :=
  if x < m - 3 * s then some (.sigma3Low x)
  else if m + 3 * s < x then some (.sigma3High x)
  else none

/-- `test_2_sigma(options)`: one call of the closure — append `x` to the
window, then check 2-of-3 beyond a 2-sigma bound (upper first, `elif` lower). -/
def test_2_sigma_step (m s : ℚ) (w : Window) (x : ℚ) : Window × Option Diagnostic :=
  let w' := w.append x
  if 2 ≤ countGT w'.data (m + 2 * s) then (w', some (.sigma2High w'.data))
  else if 2 ≤ countLT w'.data (m - 2 * s) then (w', some (.sigma2Low w'.data))
  else (w', none)

/-- `test_1_sigma(options)`: one call of the closure — append `x` to the
window, then check 4-of-5 beyond a 1-sigma bound (upper first, `elif` lower). -/
def test_1_sigma_step (m s : ℚ) (w : Window) (x : ℚ) : Window × Option Diagnostic :=
  let w' := w.append x
  if 4 ≤ countGT w'.data (m + 1 * s) then (w', some (.sigma1High w'.data))
  else if 4 ≤ countLT w'.data (m - 1 * s) then (w', some (.sigma1Low w'.data))
  else (w', none)

/-- The five `(n, Window(size, init=options.m))` pairs built by
`test_cl_shift(options)`. -/
def test_cl_shift_init (m : ℚ) : List (Nat × Window) :=
  [(8, Window.mkInit 8 m), (10, Window.mkInit 11 m), (12, Window.mkInit 14 m),
   (14, Window.mkInit 17 m), (16, Window.mkInit 20 m)]

/-- One iteration of the `for n, w in windows` loop body of `test_cl_shift`:
append `x` to this tier's window, then check its one-sided counts against the
tier threshold (`cl` is `options.m`). -/
def clTierStep (cl : ℚ) (p : Nat × Window) (x : ℚ) : (Nat × Window) × Option Diagnostic :=
  let w' := p.2.append x
  if p.1 ≤ countGT w'.data cl then ((p.1, w'), some (.clShiftHigh w'.data p.1 w'.n))
  else if p.1 ≤ countLT w'.data cl then ((p.1, w'), some (.clShiftLow w'.data p.1 w'.n))
  else ((p.1, w'), none)

/-- `test_cl_shift(options)`: one call of the closure — run the loop body over
every tier, in order, collecting each tier's diagnostic (no short-circuit). -/
def test_cl_shift_step (cl : ℚ) (ws : List (Nat × Window)) (x : ℚ) :
    List (Nat × Window) × List Diagnostic :=
  let results := ws.map (fun p => clTierStep cl p x)
  (results.map Prod.fst, results.filterMap Prod.snd)

/-- Feed a whole value sequence through the 2-sigma closure, collecting every
diagnostic it emits, in order. -/
def test_2_sigma_run (m s : ℚ) (w : Window) : List ℚ → List Diagnostic
  | [] => []
  | x :: xs =>
    (test_2_sigma_step m s w x).2.toList ++
      test_2_sigma_run m s (test_2_sigma_step m s w x).1 xs

/-- Feed a whole value sequence through the 1-sigma closure, collecting every
diagnostic it emits, in order. -/
def test_1_sigma_run (m s : ℚ) (w : Window) : List ℚ → List Diagnostic
  | [] => []
  | x :: xs =>
    (test_1_sigma_step m s w x).2.toList ++
      test_1_sigma_run m s (test_1_sigma_step m s w x).1 xs

/-- Feed a whole value sequence through the centerline-shift closure,
collecting every diagnostic it emits, in order. -/
def test_cl_shift_run (cl : ℚ) (ws : List (Nat × Window)) : List ℚ → List Diagnostic
  | [] => []
  | x :: xs =>
    (test_cl_shift_step cl ws x).2 ++
      test_cl_shift_run cl (test_cl_shift_step cl ws x).1 xs

/-- Fold a value sequence through the centerline-shift state only. -/
def test_cl_shift_iter (cl : ℚ) (ws : List (Nat × Window)) : List ℚ → List (Nat × Window)
  | [] => ws
  | x :: xs => test_cl_shift_iter cl (test_cl_shift_step cl ws x).1 xs

/-- The mutable state owned by the four closures `control_chart` builds:
the 2-sigma window, the 1-sigma window, and the five shift tiers
(`test_3_sigma` is stateless). -/
structure EngineState where
  w2 : Window
  w1 : Window
  wcl : List (Nat × Window)
  deriving DecidableEq

/-- The fresh state built by the four `test_*` constructors at engine start. -/
def engineInit (m : ℚ) : EngineState :=
  ⟨Window.mkInit 3 m, Window.mkInit 5 m, test_cl_shift_init m⟩

/-- One iteration of `control_chart`'s inner loop: pass `x` to each test in
order (3-sigma, 2-sigma, 1-sigma, centerline shift) and collect the emitted
diagnostics in stderr order. -/
def engineStep (m s : ℚ) (st : EngineState) (x : ℚ) : EngineState × List Diagnostic :=
  let d3 := test_3_sigma m s x
  let r2 := test_2_sigma_step m s st.w2 x
  let r1 := test_1_sigma_step m s st.w1 x
  let rcl := test_cl_shift_step m st.wcl x
  (⟨r2.1, r1.1, rcl.1⟩, d3.toList ++ r2.2.toList ++ r1.2.toList ++ rcl.2)

/-- Run the engine loop over the remaining stream from a given state. -/
def engineRun (m s : ℚ) (st : EngineState) : List ℚ → List Diagnostic
  | [] => []
  | x :: xs => (engineStep m s st x).2 ++ engineRun m s (engineStep m s st x).1 xs

/-- `control_chart(stream, options)`: build the tests and feed every stream
value to each of them, collecting all rule diagnostics. -/
def control_chart (m s : ℚ) (xs : List ℚ) : List Diagnostic :=
  engineRun m s (engineInit m) xs

/-- Python `str.strip()` on a character list: drop leading and trailing
whitespace. -/
def stripWS (l : List Char) : List Char :=
  ((l.dropWhile Char.isWhitespace).reverse.dropWhile Char.isWhitespace).reverse

/-- Python `str.strip(c)` for a single character `c`: drop every leading and
trailing occurrence of `c`. -/
def stripCh (c : Char) (l : List Char) : List Char :=
  ((l.dropWhile (fun d => d = c)).reverse.dropWhile (fun d => d = c)).reverse

/-- Numeric value of a digit string (most significant first). -/
def digitsVal (l : List Char) : Nat :=
  l.foldl (fun a c => a * 10 + (c.toNat - 48)) 0

/-- Leading optional sign of a numeric literal: `(negative?, rest)`. -/
def splitSign : List Char → Bool × List Char
  | '-' :: rest => (true, rest)
  | '+' :: rest => (false, rest)
  | l => (false, l)

/-- Mantissa of a decimal literal: digits with an optional decimal point,
at least one digit in total. -/
def parseMantissa (l : List Char) : Option ℚ :=
  match l.span Char.isDigit with
  | (ip, []) => if ip.isEmpty then none else some (digitsVal ip)
  | (ip, '.' :: fp) =>
    if fp.all Char.isDigit ∧ ¬(ip.isEmpty ∧ fp.isEmpty) then
      some ((digitsVal ip : ℚ) + (digitsVal fp : ℚ) / (10 : ℚ) ^ fp.length)
    else none
  | _ => none

/-- Model of Python's builtin `float(str)` on ordinary decimal literals:
optional sign, digits with optional decimal point, optional `e`/`E`-exponent.
Returns `none` exactly when Python would raise `ValueError`. -/
def pyFloat (str : String) : Option ℚ :=
  let (neg, body) := splitSign str.toList
  match body.span (fun c => ¬(c = 'e' ∨ c = 'E')) with
  | (mantChars, expChars) =>
    let mant? := parseMantissa mantChars
    let exp? : Option Int :=
      match expChars with
      | [] => some 0
      | _ :: erest =>
        match splitSign erest with
        | (eneg, edigits) =>
          if ¬edigits.isEmpty ∧ edigits.all Char.isDigit then
            some (if eneg then -(digitsVal edigits : Int) else (digitsVal edigits : Int))
          else none
    match mant?, exp? with
    | some mv, some ev =>
      let mv := if neg then -mv else mv
      some (if 0 ≤ ev then mv * (10 : ℚ) ^ ev.toNat else mv / (10 : ℚ) ^ (-ev).toNat)
    | _, _ => none

/-- What `load_stream` does with one input line: yield a float, skip it,
or report it as invalid. -/
inductive LineResult where
  | value (x : ℚ)
  | skip
  | invalid (line : String)
  deriving DecidableEq

/-- The body of `load_stream`'s loop for one `line`: strip whitespace, skip
empties, strip surrounding quotes when the first character is a quote, then
try `float`; on failure report `invalid line %r % line`. -/
def load_stream_line (line : String) : LineResult :=
  let clean := stripWS line.toList
  match clean with
  | [] => .skip
  | c :: _ =>
    let clean2 := if c = '"' ∨ c = '\'' then stripCh '\'' (stripCh '"' clean) else clean
    match pyFloat (String.mk clean2) with
    | some x => .value x
    | none => .invalid line

/-- `load_stream(input_stream)` over a finite list of lines: the floats it
yields to the engine, in order, and the invalid-line diagnostics it emits. -/
def load_stream : List String → List ℚ × List Diagnostic
  | [] => ([], [])
  | line :: rest =>
    match load_stream_line line, load_stream rest with
    | .value x, (vs, ds) => (x :: vs, ds)
    | .skip, (vs, ds) => (vs, ds)
    | .invalid l, (vs, ds) => (vs, .invalidLine l :: ds)

/-- The validated chart parameters (`argparse.Namespace` with `m` and `s`). -/
structure Options where
  m : ℚ
  s : ℚ
  deriving DecidableEq

/-- `parse_args()`: both `-m` and `-s` are `required=True` with `type=float`;
argparse exits with a non-zero status when either is absent or does not parse
as a float.  No further validation is performed. -/
def parse_args (mArg sArg : Option String) : Except Unit Options :=
  match mArg, sArg with
  | some ms, some ss =>
    match pyFloat ms, pyFloat ss with
    | some mv, some sv => .ok ⟨mv, sv⟩
    | _, _ => .error ()
  | _, _ => .error ()

/-- `main()`: parse the arguments, then run `control_chart` over the stream
produced by `load_stream`.  On a parse failure the process exits non-zero
before reading any input; otherwise the result pairs the rule diagnostics
with the loader's invalid-line diagnostics. -/
def main_run (mArg sArg : Option String) (lines : List String) :
    Except Unit (List Diagnostic × List Diagnostic) :=
  match parse_args mArg sArg with
  | .error _ => .error ()
  | .ok o => .ok (control_chart o.m o.s (load_stream lines).1, (load_stream lines).2)

/-- Reference ring buffer for the refinement claim: the spec's re-statement of
`Window` with explicit modulo-arithmetic index advancement and no
exception-driven control flow. -/
structure RingBuffer where
  n : Nat
  pos : Nat
  data : List ℚ
  deriving DecidableEq

/-- Fresh reference ring buffer, every slot pre-filled with `init`. -/
def RingBuffer.mkInit (n : Nat) (init : ℚ) : RingBuffer :=
  ⟨n, 0, List.replicate n init⟩

/-- Reference ring-buffer write: store at `pos`, advance `pos` modulo `n`. -/
def RingBuffer.push (r : RingBuffer) (v : ℚ) : RingBuffer :=
  ⟨r.n, (r.pos + 1) % r.n, r.data.set r.pos v⟩

/-- Fold a sequence of values through `RingBuffer.push`. -/
def RingBuffer.pushAll (r : RingBuffer) (xs : List ℚ) : RingBuffer :=
  xs.foldl RingBuffer.push r

/-- The pure state update a single engine step performs: append the incoming
value to every rule window; nothing else (no dependence on the bounds or on
which diagnostics fire). -/
def engineAppendOnly (st : EngineState) (x : ℚ) : EngineState :=
  ⟨st.w2.append x, st.w1.append x, st.wcl.map (fun p => (p.1, p.2.append x))⟩

/-- Fold a value sequence through the engine state only. -/
def engineIter (m s : ℚ) (st : EngineState) : List ℚ → EngineState
  | [] => st
  | x :: xs => engineIter m s (engineStep m s st x).1 xs

end ControlChart

instance {ε α : Type} [DecidableEq ε] [DecidableEq α] : DecidableEq (Except ε α) := fun a b =>
  match a, b with
  | .error u, .error v =>
    if h : u = v then isTrue (by rw [h]) else isFalse (fun he => by cases he; exact h rfl)
  | .ok u, .ok v =>
    if h : u = v then isTrue (by rw [h]) else isFalse (fun he => by cases he; exact h rfl)
  | .error _, .ok _ => isFalse (fun he => by cases he)
  | .ok _, .error _ => isFalse (fun he => by cases he)

namespace ControlChart

/-! ### Auxiliary lemmas about counting and the window buffer -/

lemma countGT_eq_zero {l : List ℚ} {b : ℚ} (h : ∀ y ∈ l, ¬ b < y) : countGT l b = 0 := by
  simp only [countGT, List.length_eq_zero, List.filter_eq_nil_iff, decide_eq_true_eq]
  exact h

lemma countLT_eq_zero {l : List ℚ} {b : ℚ} (h : ∀ y ∈ l, ¬ y < b) : countLT l b = 0 := by
  simp only [countLT, List.length_eq_zero, List.filter_eq_nil_iff, decide_eq_true_eq]
  exact h

lemma countGT_append (l₁ l₂ : List ℚ) (b : ℚ) :
    countGT (l₁ ++ l₂) b = countGT l₁ b + countGT l₂ b := by
  simp [countGT, List.filter_append]

lemma countLT_append (l₁ l₂ : List ℚ) (b : ℚ) :
    countLT (l₁ ++ l₂) b = countLT l₁ b + countLT l₂ b := by
  simp [countLT, List.filter_append]

lemma countGT_replicate {j : Nat} {m b : ℚ} (h : m ≤ b) :
    countGT (List.replicate j m) b = 0 :=
  countGT_eq_zero (fun y hy => by rw [List.eq_of_mem_replicate hy]; exact not_lt.mpr h)

lemma countLT_replicate {j : Nat} {m b : ℚ} (h : b ≤ m) :
    countLT (List.replicate j m) b = 0 :=
  countLT_eq_zero (fun y hy => by rw [List.eq_of_mem_replicate hy]; exact not_lt.mpr h)

lemma countGT_add_countLT_le (l : List ℚ) (b₁ b₂ : ℚ) (h : b₂ ≤ b₁) :
    countGT l b₁ + countLT l b₂ ≤ l.length := by
  induction l with
  | nil => simp [countGT, countLT]
  | cons a l ih =>
    simp only [countGT, countLT, List.filter_cons, List.length_cons] at *
    by_cases h1 : b₁ < a
    · have h2 : ¬ a < b₂ := not_lt.mpr (le_of_lt (lt_of_le_of_lt h h1))
      simp [h1, h2]
      omega
    · by_cases h2 : a < b₂
      · simp [h1, h2]
        omega
      · simp [h1, h2]
        omega

lemma Window.append_data_length (w : Window) (x : ℚ) :
    (w.append x).data.length = w.data.length := by
  unfold Window.append; split <;> simp

lemma Window.appendAll_data_length (xs : List ℚ) (w : Window) :
    (w.appendAll xs).data.length = w.data.length := by
  induction xs generalizing w with
  | nil => rfl
  | cons x xs ih =>
    show ((w.append x).appendAll xs).data.length = _
    rw [ih, Window.append_data_length]

lemma Window.mem_append_data {w : Window} {x y : ℚ} (h : y ∈ (w.append x).data) :
    y ∈ w.data ∨ y = x := by
  unfold Window.append at h
  split at h <;> exact List.mem_or_eq_of_mem_set h

/-! ### Claim theorems -/

/-- C1: for `centerline - 3*stdev ≤ x ≤ centerline + 3*stdev` the 3-sigma
rule emits no diagnostic; strictly below the lower bound it emits exactly the
"is < 3 sigma" diagnostic; strictly above the upper bound exactly the
"is > 3 sigma" diagnostic; and (for a nonnegative stdev) the two branches are
mutually exclusive — the rule emits at most one diagnostic per call. -/
theorem three_sigma_cases (m s x : ℚ) (hs : 0 ≤ s) :
    (m - 3 * s ≤ x ∧ x ≤ m + 3 * s → test_3_sigma m s x = none) ∧
    (x < m - 3 * s → test_3_sigma m s x = some (Diagnostic.sigma3Low x)) ∧
    (m + 3 * s < x → test_3_sigma m s x = some (Diagnostic.sigma3High x)) ∧
    ¬(x < m - 3 * s ∧ m + 3 * s < x) := by
  unfold test_3_sigma
  refine ⟨?_, ?_, ?_, ?_⟩
  · rintro ⟨h1, h2⟩
    rw [if_neg (not_lt.mpr h1), if_neg (not_lt.mpr h2)]
  · intro h
    rw [if_pos h]
  · intro h
    have hnl : ¬ x < m - 3 * s := not_lt.mpr (le_of_lt (lt_of_le_of_lt (by linarith) h))
    rw [if_neg hnl, if_pos h]
  · rintro ⟨h1, h2⟩
    linarith

/-- Witness for C1 at `m = 0`, `s = 1`, `x = 7/2`. -/
theorem three_sigma_cases_witness :
    test_3_sigma 0 1 (7/2) = some (Diagnostic.sigma3High (7/2)) :=
  (three_sigma_cases 0 1 (7/2) (by norm_num)).2.2.1 (by norm_num)

/-- C2: for a fresh two-sigma rule with centerline 0 and stdev 1 (window of
capacity 3 pre-filled with the centerline), feeding 2.5 produces no diagnostic
and leaves exactly one entry above `ucl = 2`; feeding a second 2.5 fires the
upper-side clustering diagnostic on that second value, before 3 real
observations have arrived. -/
theorem two_sigma_fires_on_second_value :
    (test_2_sigma_step 0 1 (Window.mkInit 3 0) (5/2)).2 = none ∧
    countGT (test_2_sigma_step 0 1 (Window.mkInit 3 0) (5/2)).1.data (0 + 2 * 1) = 1 ∧
    (test_2_sigma_step 0 1 (test_2_sigma_step 0 1 (Window.mkInit 3 0) (5/2)).1 (5/2)).2
      = some (Diagnostic.sigma2High [5/2, 5/2, 0]) := by
  with_unfolding_all decide

/-- C6: on the input lines `["1.0", "", "abc", "2.0"]` the stream loader
yields exactly 1.0 and 2.0 to the engine, in that order, skips the blank line
silently, and emits exactly one malformed-line diagnostic, for `"abc"`. -/
theorem load_stream_malformed_line :
    load_stream ["1.0", "", "abc", "2.0"] = ([1, 2], [Diagnostic.invalidLine "abc"]) := by
  with_unfolding_all decide

lemma test_2_sigma_step_fst (m s : ℚ) (w : Window) (x : ℚ) :
    (test_2_sigma_step m s w x).1 = w.append x := by
  simp only [test_2_sigma_step]
  split
  · rfl
  · split <;> rfl

lemma test_1_sigma_step_fst (m s : ℚ) (w : Window) (x : ℚ) :
    (test_1_sigma_step m s w x).1 = w.append x := by
  simp only [test_1_sigma_step]
  split
  · rfl
  · split <;> rfl

lemma clTierStep_fst (cl : ℚ) (p : Nat × Window) (x : ℚ) :
    (clTierStep cl p x).1 = (p.1, p.2.append x) := by
  simp only [clTierStep]
  split
  · rfl
  · split <;> rfl

lemma test_cl_shift_step_fst (cl : ℚ) (ws : List (Nat × Window)) (x : ℚ) :
    (test_cl_shift_step cl ws x).1 = ws.map (fun p => (p.1, p.2.append x)) := by
  simp only [test_cl_shift_step, List.map_map]
  exact List.map_congr_left (fun p _ => clTierStep_fst cl p x)

lemma test_cl_shift_step_snd (cl : ℚ) (ws : List (Nat × Window)) (x : ℚ) :
    (test_cl_shift_step cl ws x).2 = ws.filterMap (fun p => (clTierStep cl p x).2) := by
  simp only [test_cl_shift_step, List.filterMap_map]
  rfl

lemma window_ring_equiv_aux (n : Nat) (hn : 0 < n) :
    ∀ (xs : List ℚ) (w : Window) (r : RingBuffer),
      w.n = n → r.n = n → w.data = r.data → w.idx ≤ n → w.idx % n = r.pos →
      (w.appendAll xs).data = (r.pushAll xs).data := by
  intro xs
  induction xs with
  | nil =>
    intro w r _ _ hd _ _
    exact hd
  | cons x xs ih =>
    intro w r hw hr hd hle hpos
    show ((w.append x).appendAll xs).data = ((r.push x).pushAll xs).data
    rcases Nat.lt_or_ge w.idx n with hlt | hge
    · have hidx : w.idx < w.n := hw ▸ hlt
      have hpos' : r.pos = w.idx := by rw [← hpos, Nat.mod_eq_of_lt hlt]
      have happ : w.append x = ⟨n, w.idx + 1, w.data.set w.idx x⟩ := by
        unfold Window.append
        rw [if_pos hidx, hw]
      have hpush : r.push x = ⟨n, (w.idx + 1) % n, r.data.set w.idx x⟩ := by
        unfold RingBuffer.push
        rw [hr, hpos']
      apply ih
      · rw [happ]
      · rw [hpush]
      · rw [happ, hpush, hd]
      · rw [happ]
        show w.idx + 1 ≤ n
        omega
      · rw [happ, hpush]
    · have heq : w.idx = n := le_antisymm hle hge
      have hidx : ¬ w.idx < w.n := by rw [hw, heq]; exact lt_irrefl n
      have hpos' : r.pos = 0 := by rw [← hpos, heq, Nat.mod_self]
      have happ : w.append x = ⟨n, 1, w.data.set 0 x⟩ := by
        unfold Window.append
        rw [if_neg hidx, hw]
      have hpush : r.push x = ⟨n, 1 % n, r.data.set 0 x⟩ := by
        unfold RingBuffer.push
        rw [hr, hpos']
      apply ih
      · rw [happ]
      · rw [hpush]
      · rw [happ, hpush, hd]
      · rw [happ]
        show 1 ≤ n
        omega
      · rw [happ, hpush]

/-- C7: the exception-driven wrap in `Window.append` is observably equivalent
to a reference ring buffer with explicit modulo-arithmetic index advancement —
for every capacity `n > 0`, initial fill value, and finite sequence of
appended values, both hold the same buffer contents, and the window always
holds exactly `n` entries. -/
theorem window_refines_modulo_ring (n : Nat) (hn : 0 < n) (init : ℚ) (xs : List ℚ) :
    (Window.appendAll (Window.mkInit n init) xs).data
      = (RingBuffer.pushAll (RingBuffer.mkInit n init) xs).data ∧
    ((Window.mkInit n init).appendAll xs).data.length = n := by
  constructor
  · exact window_ring_equiv_aux n hn xs (Window.mkInit n init) (RingBuffer.mkInit n init)
      rfl rfl rfl (Nat.zero_le n) (by simp [Window.mkInit, RingBuffer.mkInit])
  · rw [Window.appendAll_data_length]
    simp [Window.mkInit]

/-- Witness for C7 at capacity 2, fill 0, values `[1, 2, 3]` (one wrap). -/
theorem window_refines_modulo_ring_witness :
    (Window.appendAll (Window.mkInit 2 0) [1, 2, 3]).data
      = (RingBuffer.pushAll (RingBuffer.mkInit 2 0) [1, 2, 3]).data ∧
    ((Window.mkInit 2 0).appendAll [1, 2, 3]).data.length = 2 :=
  window_refines_modulo_ring 2 (by norm_num) 0 [1, 2, 3]

/-- C3: on each new value the centerline-shift rule appends the value to all
five tier windows and evaluates every tier independently, with no
short-circuit after a tier fires; in particular, for a fresh engine a run of
8 consecutive values strictly greater than the centerline fires exactly the
(8,8) tier on the 8th value — the (10,11) tier does not fire there. -/
theorem cl_shift_tiers_independent :
    (∀ (cl x : ℚ) (ws : List (Nat × Window)),
        (test_cl_shift_step cl ws x).1 = ws.map (fun p => (p.1, p.2.append x)) ∧
        (test_cl_shift_step cl ws x).2 = ws.filterMap (fun p => (clTierStep cl p x).2)) ∧
    (test_cl_shift_step 0 (test_cl_shift_iter 0 (test_cl_shift_init 0) (List.replicate 7 1)) 1).2
      = [Diagnostic.clShiftHigh (List.replicate 8 1) 8 8] := by
  constructor
  · intro cl x ws
    exact ⟨test_cl_shift_step_fst cl ws x, test_cl_shift_step_snd cl ws x⟩
  · with_unfolding_all decide

/-- C10: emitting a diagnostic never resets or otherwise mutates any rule's
window — the only state change an engine step makes is appending the incoming
value, so the state after any input prefix is the pure fold of appends over
that prefix (independent of which diagnostics fired); and a rule can fire
again on the immediately following value (the two-sigma rule fires on both
the 2nd and 3rd of three consecutive out-of-bound values). -/
theorem observe_only_appends :
    (∀ (m s : ℚ) (st : EngineState) (x : ℚ),
        (engineStep m s st x).1 = engineAppendOnly st x) ∧
    (∀ (m s : ℚ) (st : EngineState) (xs : List ℚ),
        engineIter m s st xs = xs.foldl engineAppendOnly st) ∧
    test_2_sigma_run 0 1 (Window.mkInit 3 0) [5/2, 5/2, 5/2]
      = [Diagnostic.sigma2High [5/2, 5/2, 0], Diagnostic.sigma2High [5/2, 5/2, 5/2]] := by
  have hstep : ∀ (m s : ℚ) (st : EngineState) (x : ℚ),
      (engineStep m s st x).1 = engineAppendOnly st x := by
    intro m s st x
    simp [engineStep, engineAppendOnly, test_2_sigma_step_fst, test_1_sigma_step_fst,
      test_cl_shift_step_fst]
  refine ⟨hstep, ?_, ?_⟩
  · intro m s st xs
    induction xs generalizing st with
    | nil => rfl
    | cons x xs ih =>
      show engineIter m s (engineStep m s st x).1 xs = _
      rw [hstep, ih]
      rfl
  · with_unfolding_all decide

/-- C9: processing is deterministic — two freshly constructed engines with
identical parameters fed the identical value sequence produce identical
diagnostics in identical order. -/
theorem control_chart_deterministic (m₁ s₁ m₂ s₂ : ℚ) (xs₁ xs₂ : List ℚ)
    (hm : m₁ = m₂) (hs : s₁ = s₂) (hx : xs₁ = xs₂) :
    control_chart m₁ s₁ xs₁ = control_chart m₂ s₂ xs₂ := by
  rw [hm, hs, hx]

/-- Witness for C9 at `m = 0`, `s = 1`, `xs = [4]`. -/
theorem control_chart_deterministic_witness :
    control_chart 0 1 [4] = control_chart 0 1 [4] :=
  control_chart_deterministic 0 1 0 1 [4] [4] rfl rfl rfl

lemma appendAll_mkInit (m : ℚ) (n : Nat) :
    ∀ xs : List ℚ, xs.length ≤ n →
      (Window.mkInit n m).appendAll xs
        = ⟨n, xs.length, xs ++ List.replicate (n - xs.length) m⟩ := by
  intro xs
  induction xs using List.reverseRecOn with
  | nil =>
    intro _
    simp [Window.mkInit, Window.appendAll]
  | append_singleton xs x ih =>
    intro h
    have hlen : xs.length < n := by
      simp only [List.length_append, List.length_cons, List.length_nil] at h
      omega
    have hxs := ih (le_of_lt hlen)
    show Window.appendAll (Window.mkInit n m) (xs ++ [x]) = _
    rw [Window.appendAll, List.foldl_append]
    rw [show List.foldl Window.append (Window.mkInit n m) xs
          = (Window.mkInit n m).appendAll xs from rfl, hxs]
    show (⟨n, xs.length, xs ++ List.replicate (n - xs.length) m⟩ : Window).append x = _
    unfold Window.append
    rw [if_pos hlen]
    have hk : n - xs.length = (n - (xs.length + 1)) + 1 := by omega
    rw [List.set_append_right xs.length x (le_refl _), Nat.sub_self, hk, List.replicate_succ]
    simp [List.append_assoc]

lemma test_2_sigma_run_in_bounds (m s : ℚ) :
    ∀ (xs : List ℚ) (w : Window),
      (∀ y ∈ w.data, ¬ m + 2 * s < y ∧ ¬ y < m - 2 * s) →
      (∀ x ∈ xs, ¬ m + 2 * s < x ∧ ¬ x < m - 2 * s) →
      test_2_sigma_run m s w xs = [] := by
  intro xs
  induction xs with
  | nil =>
    intro w _ _
    rfl
  | cons x xs ih =>
    intro w hw hxs
    have hw' : ∀ y ∈ (w.append x).data, ¬ m + 2 * s < y ∧ ¬ y < m - 2 * s := by
      intro y hy
      rcases Window.mem_append_data hy with h | h
      · exact hw y h
      · exact h ▸ hxs x (List.mem_cons_self x xs)
    have hGT : countGT (w.append x).data (m + 2 * s) = 0 :=
      countGT_eq_zero (fun y hy => (hw' y hy).1)
    have hLT : countLT (w.append x).data (m - 2 * s) = 0 :=
      countLT_eq_zero (fun y hy => (hw' y hy).2)
    have hstep : test_2_sigma_step m s w x = (w.append x, none) := by
      simp only [test_2_sigma_step]
      rw [hGT, hLT]
      norm_num
    show (test_2_sigma_step m s w x).2.toList
        ++ test_2_sigma_run m s (test_2_sigma_step m s w x).1 xs = []
    rw [hstep]
    show test_2_sigma_run m s (w.append x) xs = []
    exact ih _ hw' (fun a ha => hxs a (List.mem_cons_of_mem x ha))

lemma test_1_sigma_run_in_bounds (m s : ℚ) :
    ∀ (xs : List ℚ) (w : Window),
      (∀ y ∈ w.data, ¬ m + 1 * s < y ∧ ¬ y < m - 1 * s) →
      (∀ x ∈ xs, ¬ m + 1 * s < x ∧ ¬ x < m - 1 * s) →
      test_1_sigma_run m s w xs = [] := by
  intro xs
  induction xs with
  | nil =>
    intro w _ _
    rfl
  | cons x xs ih =>
    intro w hw hxs
    have hw' : ∀ y ∈ (w.append x).data, ¬ m + 1 * s < y ∧ ¬ y < m - 1 * s := by
      intro y hy
      rcases Window.mem_append_data hy with h | h
      · exact hw y h
      · exact h ▸ hxs x (List.mem_cons_self x xs)
    have hGT : countGT (w.append x).data (m + 1 * s) = 0 :=
      countGT_eq_zero (fun y hy => (hw' y hy).1)
    have hLT : countLT (w.append x).data (m - 1 * s) = 0 :=
      countLT_eq_zero (fun y hy => (hw' y hy).2)
    have hstep : test_1_sigma_step m s w x = (w.append x, none) := by
      simp only [test_1_sigma_step]
      rw [hGT, hLT]
      norm_num
    show (test_1_sigma_step m s w x).2.toList
        ++ test_1_sigma_run m s (test_1_sigma_step m s w x).1 xs = []
    rw [hstep]
    show test_1_sigma_run m s (w.append x) xs = []
    exact ih _ hw' (fun a ha => hxs a (List.mem_cons_of_mem x ha))

lemma test_cl_shift_run_on_centerline (cl : ℚ) :
    ∀ (xs : List ℚ) (ws : List (Nat × Window)),
      (∀ p ∈ ws, 0 < p.1 ∧ ∀ y ∈ p.2.data, ¬ cl < y ∧ ¬ y < cl) →
      (∀ x ∈ xs, ¬ cl < x ∧ ¬ x < cl) →
      test_cl_shift_run cl ws xs = [] := by
  intro xs
  induction xs with
  | nil =>
    intro ws _ _
    rfl
  | cons x xs ih =>
    intro ws hws hxs
    have htier : ∀ p ∈ ws, clTierStep cl p x = ((p.1, p.2.append x), none) := by
      intro p hp
      have h0 := (hws p hp).1
      have hmem : ∀ y ∈ (p.2.append x).data, ¬ cl < y ∧ ¬ y < cl := by
        intro y hy
        rcases Window.mem_append_data hy with h | h
        · exact (hws p hp).2 y h
        · exact h ▸ hxs x (List.mem_cons_self x xs)
      have hGT : countGT (p.2.append x).data cl = 0 :=
        countGT_eq_zero (fun y hy => (hmem y hy).1)
      have hLT : countLT (p.2.append x).data cl = 0 :=
        countLT_eq_zero (fun y hy => (hmem y hy).2)
      simp only [clTierStep]
      rw [hGT, hLT, if_neg (by omega), if_neg (by omega)]
    have hsnd : (test_cl_shift_step cl ws x).2 = [] := by
      rw [test_cl_shift_step_snd]
      simp only [List.filterMap_eq_nil_iff]
      intro p hp
      rw [htier p hp]
    have hstate : ∀ p ∈ (test_cl_shift_step cl ws x).1,
        0 < p.1 ∧ ∀ y ∈ p.2.data, ¬ cl < y ∧ ¬ y < cl := by
      rw [test_cl_shift_step_fst]
      intro p hp
      rcases List.mem_map.mp hp with ⟨q, hq, rfl⟩
      refine ⟨(hws q hq).1, ?_⟩
      intro y hy
      rcases Window.mem_append_data hy with h | h
      · exact (hws q hq).2 y h
      · exact h ▸ hxs x (List.mem_cons_self x xs)
    show (test_cl_shift_step cl ws x).2
        ++ test_cl_shift_run cl (test_cl_shift_step cl ws x).1 xs = []
    rw [hsnd, List.nil_append]
    exact ih _ hstate (fun a ha => hxs a (List.mem_cons_of_mem x ha))

/-- C4: window placeholders (slots initialized to the centerline) never count
toward either side's strict-inequality count — for prefixes shorter than the
capacity the counts over the window equal the counts over the real
observations alone; and if no real observation fed so far lies strictly
beyond the relevant bound (strictly off the centerline for the shift tiers),
the clustering and centerline-shift rules emit no diagnostic: padding alone
never fires a rule. -/
theorem placeholders_never_fire (m s : ℚ) (hs : 0 ≤ s) :
    (∀ (n : Nat) (b : ℚ) (xs : List ℚ), m ≤ b → xs.length ≤ n →
        countGT ((Window.mkInit n m).appendAll xs).data b = countGT xs b) ∧
    (∀ (n : Nat) (b : ℚ) (xs : List ℚ), b ≤ m → xs.length ≤ n →
        countLT ((Window.mkInit n m).appendAll xs).data b = countLT xs b) ∧
    (∀ xs : List ℚ, xs.length < 3 →
        (∀ x ∈ xs, ¬ m + 2 * s < x ∧ ¬ x < m - 2 * s) →
        test_2_sigma_run m s (Window.mkInit 3 m) xs = []) ∧
    (∀ xs : List ℚ, xs.length < 5 →
        (∀ x ∈ xs, ¬ m + 1 * s < x ∧ ¬ x < m - 1 * s) →
        test_1_sigma_run m s (Window.mkInit 5 m) xs = []) ∧
    (∀ xs : List ℚ, xs.length < 8 →
        (∀ x ∈ xs, ¬ m < x ∧ ¬ x < m) →
        test_cl_shift_run m (test_cl_shift_init m) xs = []) := by
  have hinit : ∀ (k : Nat) (y : ℚ), y ∈ (Window.mkInit k m).data → y = m := by
    intro k y hy
    exact List.eq_of_mem_replicate hy
  refine ⟨?_, ?_, ?_, ?_, ?_⟩
  · intro n b xs hb hlen
    rw [appendAll_mkInit m n xs hlen]
    show countGT (xs ++ List.replicate (n - xs.length) m) b = countGT xs b
    rw [countGT_append, countGT_replicate hb]
    omega
  · intro n b xs hb hlen
    rw [appendAll_mkInit m n xs hlen]
    show countLT (xs ++ List.replicate (n - xs.length) m) b = countLT xs b
    rw [countLT_append, countLT_replicate hb]
    omega
  · intro xs _ hxs
    apply test_2_sigma_run_in_bounds m s xs (Window.mkInit 3 m) ?_ hxs
    intro y hy
    rw [hinit 3 y hy]
    constructor
    · exact not_lt.mpr (by linarith)
    · exact not_lt.mpr (by linarith)
  · intro xs _ hxs
    apply test_1_sigma_run_in_bounds m s xs (Window.mkInit 5 m) ?_ hxs
    intro y hy
    rw [hinit 5 y hy]
    constructor
    · exact not_lt.mpr (by linarith)
    · exact not_lt.mpr (by linarith)
  · intro xs _ hxs
    apply test_cl_shift_run_on_centerline m xs (test_cl_shift_init m) ?_ hxs
    intro p hp
    simp only [test_cl_shift_init, List.mem_cons, List.not_mem_nil, or_false] at hp
    rcases hp with rfl | rfl | rfl | rfl | rfl
    · exact ⟨by norm_num, fun y hy => by rw [hinit 8 y hy]; exact ⟨lt_irrefl m, lt_irrefl m⟩⟩
    · exact ⟨by norm_num, fun y hy => by rw [hinit 11 y hy]; exact ⟨lt_irrefl m, lt_irrefl m⟩⟩
    · exact ⟨by norm_num, fun y hy => by rw [hinit 14 y hy]; exact ⟨lt_irrefl m, lt_irrefl m⟩⟩
    · exact ⟨by norm_num, fun y hy => by rw [hinit 17 y hy]; exact ⟨lt_irrefl m, lt_irrefl m⟩⟩
    · exact ⟨by norm_num, fun y hy => by rw [hinit 20 y hy]; exact ⟨lt_irrefl m, lt_irrefl m⟩⟩

/-- Witness for C4 at `m = 0`, `s = 1`: one in-bounds observation into the
fresh two-sigma rule fires nothing. -/
theorem placeholders_never_fire_witness :
    test_2_sigma_run 0 1 (Window.mkInit 3 0) [1] = [] :=
  (placeholders_never_fire 0 1 (by norm_num)).2.2.1 [1] (by norm_num)
    (by with_unfolding_all decide)

/-- C8: for the configured thresholds (2-of-3 at two sigma, 4-of-5 at one
sigma) and a positive stdev, no window contents of the configured capacity can
have both one-sided counts at or above the threshold — so the upper and lower
clustering branches are mutually exclusive and each observe call emits at most
one diagnostic; and every reachable window of these two rules keeps exactly
that capacity. -/
theorem sigma_cluster_mutual_exclusion (m s : ℚ) (hs : 0 < s) :
    (∀ data : List ℚ, data.length = 3 →
        ¬(2 ≤ countGT data (m + 2 * s) ∧ 2 ≤ countLT data (m - 2 * s))) ∧
    (∀ data : List ℚ, data.length = 5 →
        ¬(4 ≤ countGT data (m + 1 * s) ∧ 4 ≤ countLT data (m - 1 * s))) ∧
    (∀ xs : List ℚ, ((Window.mkInit 3 m).appendAll xs).data.length = 3) ∧
    (∀ xs : List ℚ, ((Window.mkInit 5 m).appendAll xs).data.length = 5) := by
  refine ⟨?_, ?_, ?_, ?_⟩
  · rintro data hlen ⟨h1, h2⟩
    have hb : m - 2 * s ≤ m + 2 * s := by linarith
    have := countGT_add_countLT_le data (m + 2 * s) (m - 2 * s) hb
    omega
  · rintro data hlen ⟨h1, h2⟩
    have hb : m - 1 * s ≤ m + 1 * s := by linarith
    have := countGT_add_countLT_le data (m + 1 * s) (m - 1 * s) hb
    omega
  · intro xs
    rw [Window.appendAll_data_length]
    simp [Window.mkInit]
  · intro xs
    rw [Window.appendAll_data_length]
    simp [Window.mkInit]

/-- Witness for C8 at `m = 0`, `s = 1`, window contents `[0, 0, 0]`. -/
theorem sigma_cluster_mutual_exclusion_witness :
    ¬(2 ≤ countGT [0, 0, 0] (0 + 2 * 1) ∧ 2 ≤ countLT [0, 0, 0] (0 - 2 * 1)) :=
  (sigma_cluster_mutual_exclusion 0 1 (by norm_num)).1 [0, 0, 0] rfl

/-- Counterexample to C5: a run configured with stdev zero (or negative) is
not rejected — `parse_args` accepts it and the engine then processes input
values normally, instead of failing fast before any value is processed. -/
theorem stdev_zero_accepted :
    parse_args (some "1") (some "0") = Except.ok ⟨1, 0⟩ ∧
    parse_args (some "1") (some "-2.5") = Except.ok ⟨1, -5/2⟩ ∧
    main_run (some "1") (some "0") ["5.0"] = Except.ok ([Diagnostic.sigma3High 5], []) := by
  with_unfolding_all decide

/-- C5 amended: a run with a missing centerline or stdev parameter fails fast
with a non-zero exit before any input is processed; but a stdev of zero or
below is not a configuration error — `parse_args` checks only that both
parameters are present and parse as floats, and the run then processes the
stream normally. -/
theorem parse_args_presence_only (mArg sArg : Option String) (lines : List String) :
    ((mArg = none ∨ sArg = none) → main_run mArg sArg lines = Except.error ()) ∧
    (∀ ms ss mv sv, mArg = some ms → sArg = some ss →
        pyFloat ms = some mv → pyFloat ss = some sv →
        main_run mArg sArg lines
          = Except.ok (control_chart mv sv (load_stream lines).1, (load_stream lines).2)) := by
  constructor
  · rintro (rfl | rfl)
    · cases sArg <;> rfl
    · cases mArg <;> rfl
  · rintro ms ss mv sv rfl rfl hm hsv
    simp only [main_run, parse_args, hm, hsv]

/-- Witness for the amended C5 at concrete arguments: a missing stdev is
rejected, and stdev `"0"` is accepted with the stream processed. -/
theorem parse_args_presence_only_witness :
    main_run (some "1") none ["5.0"] = Except.error () ∧
    main_run (some "1") (some "0") ["5.0"]
      = Except.ok (control_chart 1 0 (load_stream ["5.0"]).1, (load_stream ["5.0"]).2) :=
  ⟨(parse_args_presence_only (some "1") none ["5.0"]).1 (Or.inr rfl),
   (parse_args_presence_only (some "1") (some "0") ["5.0"]).2 "1" "0" 1 0 rfl rfl
     (by with_unfolding_all decide) (by with_unfolding_all decide)⟩

end ControlChart
